import Mathlib

/-!
# Verification of the `lil-vm` bytecode VM and assembler

A shallow embedding of the Rust sources of `lil-vm`:

* `src/bytecode.rs` — the `OpCode` enumeration, its arities and mnemonic
  spellings (declared through the external `stringy::stringy!` macro);
* `src/data.rs` — the `Reg` and `Int` newtypes and `Int::bytes`;
* `src/assembler/lexer.rs` — the lexer;
* `src/assembler/parser.rs` — the recursive-descent parser and the
  instruction/program encoders;
* `src/vm.rs` — the register machine.

Machine integers are modelled as `Nat` / `Int` with explicit `% 2^w`
wrapping where the Rust code relies on integer casts.  Rust panics
(out-of-bounds indexing, division by zero, `todo!()`, arithmetic that
panics even in release builds) are modelled by `Option`, with `none`
standing for a panic.  For `i32` addition, subtraction and multiplication
and for program-counter arithmetic we use release-mode (wrapping)
semantics.
-/

namespace LilVm

/-- The opcode enumeration from `src/bytecode.rs`, in declaration order. -/
inductive OpCode where
  | Load | Add | Sub | Mul | Div
  | Jump | JumpF | JumpB
  | Eq | NotEq | Greater | Less | GreaterEq | LessEq
  | JumpEq | JumpNeq | Halt | Bad
  deriving DecidableEq

/-- The arity declared for each opcode in `src/bytecode.rs`
(`Load "load" | "LOAD" { Arity(2) }`, and so on).  In the source
`OpCode::arity` returns `Option<Arity>` and is unwrapped at every call
site; every variant has a declared arity, so we model it as total. -/
def OpCode.arity : OpCode → Nat
  | .Load => 2 | .Add => 2 | .Sub => 2 | .Mul => 2 | .Div => 2
  | .Jump => 1 | .JumpF => 1 | .JumpB => 1
  | .Eq => 2 | .NotEq => 2 | .Greater => 2 | .Less => 2
  | .GreaterEq => 2 | .LessEq => 2
  | .JumpEq => 1 | .JumpNeq => 1 | .Halt => 0 | .Bad => 1

/-- Rust `OpCode::from_str`: the mnemonic spellings declared in
`src/bytecode.rs` (each opcode has exactly a lower-case and an upper-case
spelling). -/
def OpCode.fromStr (s : String) : Option OpCode :=
  if s = "load" ∨ s = "LOAD" then some .Load
  else if s = "add" ∨ s = "ADD" then some .Add
  else if s = "sub" ∨ s = "SUB" then some .Sub
  else if s = "mul" ∨ s = "MUL" then some .Mul
  else if s = "div" ∨ s = "DIV" then some .Div
  else if s = "jmp" ∨ s = "JMP" then some .Jump
  else if s = "jmpf" ∨ s = "JMPF" then some .JumpF
  else if s = "jmpb" ∨ s = "JMPB" then some .JumpB
  else if s = "eq" ∨ s = "EQ" then some .Eq
  else if s = "neq" ∨ s = "NEQ" then some .NotEq
  else if s = "gt" ∨ s = "GT" then some .Greater
  else if s = "lt" ∨ s = "LT" then some .Less
  else if s = "gte" ∨ s = "GTE" then some .GreaterEq
  else if s = "lte" ∨ s = "LTE" then some .LessEq
  else if s = "jmpe" ∨ s = "JMPE" then some .JumpEq
  else if s = "jmpne" ∨ s = "JMPNE" then some .JumpNeq
  else if s = "halt" ∨ s = "HALT" then some .Halt
  else if s = "bad" ∨ s = "BAD" then some .Bad
  else none

/-- The opcodes that receive "small increasing codes starting at 0,
contiguous in declaration order", i.e. every variant other than `Halt`
and the `Bad` sentinel, in the order they are declared in
`src/bytecode.rs`. -/
def OpCode.declOrder : List OpCode :=
  [.Load, .Add, .Sub, .Mul, .Div, .Jump, .JumpF, .JumpB,
   .Eq, .NotEq, .Greater, .Less, .GreaterEq, .LessEq, .JumpEq, .JumpNeq]

/-- Modelled from the spec: the numeric opcode assignment is produced by
the external `stringy::stringy!` macro (through `OpCode::VARIANTS` and
the enum discriminants), whose expansion is not part of the source tree.
Per the spec, byte value 254 decodes to `Halt`, every opcode other than
`Halt` and `Bad` gets a contiguous code starting at 0 in declaration
order, and every unassigned byte decodes to the `Bad` sentinel.  This is
`impl From<u8> for OpCode` in `src/bytecode.rs`. -/
def OpCode.decode (b : Nat) : OpCode :=
  if b = 254 then .Halt else (OpCode.declOrder.getD b .Bad)

/-- Modelled from the spec: the numeric value of each opcode (`op as u8`
in the source), the inverse direction of `OpCode.decode`.  `Halt` is the
reserved value 254; `Bad` has no value assigned by the spec, and we give
it the otherwise unassigned value 255 (no claim depends on it). -/
def OpCode.toByte : OpCode → Nat
  | .Load => 0 | .Add => 1 | .Sub => 2 | .Mul => 3 | .Div => 4
  | .Jump => 5 | .JumpF => 6 | .JumpB => 7
  | .Eq => 8 | .NotEq => 9 | .Greater => 10 | .Less => 11
  | .GreaterEq => 12 | .LessEq => 13
  | .JumpEq => 14 | .JumpNeq => 15 | .Halt => 254 | .Bad => 255

/-- Rust `Int::bytes` from `src/data.rs`: `let a = self.0 as u16; [a as u8,
(a >> 8) as u8]` — low byte first, high byte second.  The `i32 → u16`
cast keeps the low 16 bits of the two's-complement representation,
i.e. `n mod 2^16`. -/
def intBytes (n : Int) : List Nat :=
  let a := (n % 65536).toNat
  [a % 256, a / 256]

/-- An operand, `enum Operand` from `src/assembler/parser.rs`: either a
32-bit integer literal or an 8-bit register index. -/
inductive Operand where
  | int (n : Int)
  | reg (r : Nat)
  deriving DecidableEq

/-- Rust `Operand::bytes` from `src/assembler/parser.rs`: an integer operand
becomes `vec![b2, b1]` with `[b1, b2] = [m, m >> 8]` for `m = n as u16`
— high byte first, low byte second; a register operand is its single
index byte. -/
def Operand.bytes : Operand → List Nat
  | .int n =>
      let m := (n % 65536).toNat
      [m / 256, m % 256]
  | .reg r => [r]

/-! ## Lexer (`src/assembler/lexer.rs`) -/

/-- Rust's `char::is_whitespace`: the Unicode `White_Space` property. -/
def isWhitespaceChar (c : Char) : Bool :=
  (9 ≤ c.toNat && c.toNat ≤ 13) || c.toNat = 32 || c.toNat = 133 ||
  c.toNat = 160 || c.toNat = 5760 || (8192 ≤ c.toNat && c.toNat ≤ 8202) ||
  c.toNat = 8232 || c.toNat = 8233 || c.toNat = 8239 || c.toNat = 8287 ||
  c.toNat = 12288

/-- Rust's `char::is_digit(radix)`: a decimal digit or letter whose value
is below `radix`. -/
def isDigitRadix (radix : Nat) (c : Char) : Bool :=
  (48 ≤ c.toNat && c.toNat ≤ 57 && c.toNat - 48 < radix) ||
  (97 ≤ c.toNat && c.toNat - 97 + 10 < radix) ||
  (65 ≤ c.toNat && c.toNat - 65 + 10 < radix)

/-- The value of a run of decimal digits, or `none` if the run is empty
or contains a non-decimal-digit character.  This is the core of Rust's
`from_str` for unsigned integers; the call sites in the lexer only ever
feed it runs produced by `eat_while(is_digit(R))`, which contain no sign
characters, so sign handling is unreachable and not modelled. -/
def parseDigits (s : List Char) : Option Nat :=
  if s ≠ [] ∧ s.all (isDigitRadix 10) then
    some (s.foldl (fun a c => a * 10 + (c.toNat - 48)) 0)
  else none

/-- Rust `u8::from_str` (base 10, with overflow above 255 an error). -/
def u8FromStr (s : List Char) : Option Nat :=
  match parseDigits s with
  | some n => if n ≤ 255 then some n else none
  | none => none

/-- Rust `i32::from_str` on a digit run (base 10, overflow above `i32::MAX`
an error; the run has no sign so the value is non-negative). -/
def i32FromStr (s : List Char) : Option Int :=
  match parseDigits s with
  | some n => if n ≤ 2147483647 then some (Int.ofNat n) else none
  | none => none

/-- One lexical unit, `enum Lexeme` from `src/assembler/lexer.rs`.  The
error variants carry the byte span of the offending run. -/
inductive Lexeme where
  | newline
  | op (o : OpCode)
  | reg (r : Nat)
  | int (n : Int)
  | label (s : String)
  | invalidInt (a b : Nat)
  | invalidReg (a b : Nat)
  | unknown (a b : Nat)
  | eof
  deriving DecidableEq

/-- Rust `struct Token` from `src/assembler/lexer.rs`. -/
structure Token where
  lexeme : Lexeme
  deriving DecidableEq

/-- The lexer state, `struct Lexer` from `src/assembler/lexer.rs`:
the full input (`input`), the remaining character iterator (`rest` for
`chars`), the one-token peek buffer (`current`), the line/column pair
(`lncol`), the byte offset, and the pending-newline flag (`eol`). -/
structure Lexer where
  input : List Char
  rest : List Char
  current : Option Token
  line : Nat
  col : Nat
  byte : Nat
  eol : Bool
  deriving DecidableEq

/-- Rust `Lexer::new`. -/
def Lexer.new (s : String) : Lexer :=
  { input := s.toList
    rest := s.toList
    current := none
    line := 1
    col := 0
    byte := 0
    eol := match s.toList with | '\n' :: _ => true | _ => false }

/-- Rust `Lexer::next_char`: consume one character, updating the line/column
pair and byte offset exactly as the source does. -/
def Lexer.nextChar (l : Lexer) : Option Char × Lexer :=
  match l.rest with
  | [] => (none, l)
  | c :: cs =>
    if c = '\n' then
      (some c, { l with rest := cs, byte := l.byte + c.utf8Size, line := l.line + 1, col := 0 })
    else
      (some c, { l with rest := cs, byte := l.byte + c.utf8Size, col := l.col + 1 })

/-- Rust `Lexer::eat_while`: consume the maximal prefix of `rest` satisfying
`f`.  The source's while-loop over `peek_char`/`next_char` consumes
exactly `takeWhile f rest`, updating line/column/byte per character; the
returned pair is the byte span `(start, end)`.  We additionally return
the consumed characters themselves: the source later slices
`&self.input[start..end]`, and that slice is precisely the consumed run
(spans always fall on character boundaries). -/
def Lexer.eatWhile (l : Lexer) (f : Char → Bool) : (Nat × Nat) × List Char × Lexer :=
  let eaten := l.rest.takeWhile f
  let lcb := eaten.foldl
    (fun (t : Nat × Nat × Nat) c =>
      if c = '\n' then (t.1 + 1, 0, t.2.2 + c.utf8Size)
      else (t.1, t.2.1 + 1, t.2.2 + c.utf8Size))
    (l.line, l.col, l.byte)
  ((l.byte, lcb.2.2), eaten,
    { l with rest := l.rest.dropWhile f, line := lcb.1, col := lcb.2.1, byte := lcb.2.2 })

/-- Rust `Lexer::eat_whitespace`: skip whitespace and record in `eol` whether
a line boundary was crossed (the flag is overwritten on every call). -/
def Lexer.eatWhitespace (l : Lexer) : Lexer :=
  let line0 := l.line
  let l1 := (l.eatWhile isWhitespaceChar).2.2
  { l1 with eol := decide (line0 < l1.line) }

/-- Rust `Lexer::token`, with explicit fuel for the self-recursion in the
comment branch (each recursive call has consumed at least the `;`
character, so `rest.length + 1` units of fuel can never run out).
`none` models the `todo!()` panic on an unhandled character. -/
def Lexer.tokenFuel : Nat → Lexer → Option (Token × Lexer)
  | 0, _ => none
  | fuel + 1, l0 =>
    let l := l0.eatWhitespace
    if l.eol then some (⟨.newline⟩, { l with eol := false })
    else
      match l.rest.head? with
      | none => some (⟨.eof⟩, l)
      | some c =>
        if c = ';' then
          Lexer.tokenFuel fuel (l.eatWhile (fun x => x ≠ '\n')).2.2
        else if c = '$' then
          let l1 := (l.nextChar).2
          match l1.rest.head? with
          | some d =>
            if isDigitRadix 16 d then
              match l1.eatWhile (isDigitRadix 16) with
              | ((start, stop), run, l2) =>
                match u8FromStr run with
                | some byte => some (⟨.reg byte⟩, l2)
                | none => some (⟨.invalidInt start stop⟩, l2)
            else some (⟨.unknown (l1.byte - 1) l1.byte⟩, l1)
          | none => some (⟨.unknown (l1.byte - 1) l1.byte⟩, l1)
        else if c = '#' then
          let l1 := (l.nextChar).2
          match l1.eatWhile (isDigitRadix 10) with
          | ((start, stop), run, l2) =>
            match i32FromStr run with
            | some n => some (⟨.int n⟩, l2)
            | none => some (⟨.invalidInt start stop⟩, l2)
        else if c.isAlpha then
          match l.eatWhile (fun x => x.isAlpha) with
          | ((start, stop), run, l1) =>
            match OpCode.fromStr (String.mk run) with
            | some op => some (⟨.op op⟩, l1)
            | none => some (⟨.unknown start stop⟩, l1)
        else if isDigitRadix 10 c then
          match l.eatWhile (isDigitRadix 10) with
          | ((start, stop), run, l1) =>
            match i32FromStr run with
            | some n => some (⟨.int n⟩, l1)
            | none => some (⟨.invalidInt start stop⟩, l1)
        else none

/-- Rust `Lexer::token` at its natural fuel. -/
def Lexer.token (l : Lexer) : Option (Token × Lexer) :=
  Lexer.tokenFuel (l.rest.length + 1) l

/-- The result of the `(n+1)`-th consecutive `Lexer::token` call:
`tokenN 0` is one call, `tokenN (n+1)` discards the first token and
keeps calling on the resulting state. -/
def Lexer.tokenN : Nat → Lexer → Option (Token × Lexer)
  | 0, l => l.token
  | n + 1, l =>
    match l.token with
    | none => none
    | some (_, l1) => Lexer.tokenN n l1

/-- Rust `Lexer::peek_tok`: return the buffered token, or pull a fresh one
(an `Eof` token is reported as `none` and not buffered). -/
def Lexer.peekTok (l : Lexer) : Option (Option Token × Lexer) :=
  match l.current with
  | some t => some (some t, l)
  | none =>
    match l.token with
    | none => none
    | some (t, l1) =>
      match t.lexeme with
      | .eof => some (none, l1)
      | _ => some (some t, { l1 with current := some t })

/-- Rust `Iterator::next` for the lexer: take the buffered token if present,
otherwise lex one (an `Eof` token becomes `none`). -/
def Lexer.nextTok (l : Lexer) : Option (Option Token × Lexer) :=
  match l.current with
  | some t => some (some t, { l with current := none })
  | none =>
    match l.token with
    | none => none
    | some (t, l1) =>
      match t.lexeme with
      | .eof => some (none, l1)
      | _ => some (some t, l1)

/-! ## Parser (`src/assembler/parser.rs`) -/

/-- Rust `enum Error` from `src/assembler/parser.rs`: parse errors, tagged by
what was expected and carrying the offending token. -/
inductive Error where
  | unexpected (t : Token)
  | expectedLabel (t : Token)
  | expectedOpCode (t : Token)
  | expectedOperand (t : Token)
  | expectedInteger (t : Token)
  | expectedRegister (t : Token)
  | unexpectedEof
  deriving DecidableEq

/-- Rust `struct Instruction`: source line, optional label, opcode, and
`Arity::MAX = 3` optional operand slots (always a list of length 3). -/
structure Instruction where
  line : Nat
  label : Option Token
  opcode : OpCode
  operands : List (Option Operand)
  deriving DecidableEq

/-- Rust `Instruction::bytes`: push the opcode's numeric byte, then extend
with the bytes of each populated operand slot in order. -/
def Instruction.bytes (i : Instruction) : List Nat :=
  i.operands.foldl
    (fun acc o => match o with | some a => acc ++ a.bytes | none => acc)
    [i.opcode.toByte]

/-- Rust `struct Program`: the parsed instructions and the recovered
errors. -/
structure Program where
  instrs : List Instruction
  errors : List Error
  deriving DecidableEq

/-- Rust `Program::bytes`: the concatenation of the instructions' bytes. -/
def Program.bytes (p : Program) : List Nat :=
  (p.instrs.map Instruction.bytes).flatten

/-- Rust `struct Parser`: just a lexer (whose `current` field is the
parser's one-token lookahead). -/
structure Parser where
  lexer : Lexer
  deriving DecidableEq

/-- Rust `Parser::peek` (via `Lexer::peek_tok`). -/
def Parser.peek (p : Parser) : Option (Option Token × Parser) :=
  (p.lexer.peekTok).map fun r => (r.1, ⟨r.2⟩)

/-- Rust `Parser::bump`: peeked `Eof` (or no token) yields an `Eof` token;
otherwise advance the lexer and return the token (the source's
`.unwrap()` panic on a `None` from the iterator is `none`). -/
def Parser.bump (p : Parser) : Option (Token × Parser) :=
  match p.peek with
  | none => none
  | some (ot, p1) =>
    match ot with
    | some t =>
      match t.lexeme with
      | .eof => some (⟨.eof⟩, p1)
      | _ =>
        match p1.lexer.nextTok with
        | none => none
        | some (some t1, l1) => some (t1, ⟨l1⟩)
        | some (none, _) => none
    | none => some (⟨.eof⟩, p1)

/-- Rust `Parser::is_done`: the lookahead is `Eof` or absent. -/
def Parser.isDone (p : Parser) : Option (Bool × Parser) :=
  (p.peek).map fun r =>
    (match r.1 with
     | some t => match t.lexeme with | .eof => true | _ => false
     | none => true,
     r.2)

/-- Rust `Parser::expect_opcode`: an `Op` token is consumed and returned;
anything else (including end of input) hits the source's `todo!()`,
modelled as `none`. -/
def Parser.expectOpcode (p : Parser) : Option (Except Error OpCode × Parser) :=
  match p.peek with
  | some (some ⟨.op op⟩, p1) =>
    match p1.bump with
    | none => none
    | some (_, p2) => some (.ok op, p2)
  | _ => none

/-- Rust `Parser::operand`: an `Int` or `Reg` token is consumed and wrapped;
anything else is bumped and reported as `ExpectedOperand`. -/
def Parser.operand (p : Parser) : Option (Except Error Operand × Parser) :=
  match p.peek with
  | none => none
  | some (some ⟨.int n⟩, p1) =>
    match p1.bump with
    | none => none
    | some (_, p2) => some (.ok (.int n), p2)
  | some (some ⟨.reg r⟩, p1) =>
    match p1.bump with
    | none => none
    | some (_, p2) => some (.ok (.reg r), p2)
  | some (_, p1) =>
    match p1.bump with
    | none => none
    | some (t, p2) => some (.error (.expectedOperand t), p2)

/-- The operand loop of `Parser::instruction`:
`for i in 0..arity { instr.operands[i] = self.operand().map(Some)? }`,
with `?` propagating the first error.  The first argument is the number
of slots still to fill (`count - i` for the source's loop), the second
the next slot index `i`. -/
def Parser.fillOperands : Nat → Nat → Instruction → Parser →
    Option (Except Error Instruction × Parser)
  | 0, _, instr, p => some (.ok instr, p)
  | remaining + 1, i, instr, p =>
    match p.operand with
    | none => none
    | some (.error e, p1) => some (.error e, p1)
    | some (.ok op, p1) =>
      Parser.fillOperands remaining (i + 1)
        { instr with operands := instr.operands.set i (some op) } p1

/-- Rust `Parser::instruction`: expect an opcode, read the lexer's current
line for diagnostics, then fill exactly `arity` operand slots. -/
def Parser.instruction (p : Parser) : Option (Except Error Instruction × Parser) :=
  match p.expectOpcode with
  | none => none
  | some (.error e, p1) => some (.error e, p1)
  | some (.ok opcode, p1) =>
    Parser.fillOperands opcode.arity 0
      { line := p1.lexer.line
        label := none
        opcode
        operands := List.replicate 3 none } p1

/-- Rust `Parser::skip_newlines` (a `many_while` bumping `Newline` tokens),
with fuel for the loop. -/
def Parser.skipNewlines : Nat → Parser → Option Parser
  | 0, _ => none
  | fuel + 1, p =>
    match p.peek with
    | none => none
    | some (some ⟨.newline⟩, p1) =>
      match p1.bump with
      | none => none
      | some (_, p2) => Parser.skipNewlines fuel p2
    | some (_, p1) => some p1

/-- The error-recovery loop of `Parser::program`: bump tokens while the
lookahead exists and is not a `Newline`. -/
def Parser.skipToNewline : Nat → Parser → Option Parser
  | 0, _ => none
  | fuel + 1, p =>
    match p.peek with
    | none => none
    | some (some t, p1) =>
      match t.lexeme with
      | .newline => some p1
      | _ =>
        match p1.bump with
        | none => none
        | some (_, p2) => Parser.skipToNewline fuel p2
    | some (none, p1) => some p1

/-- The main loop of `Parser::program`: while not done, parse one
instruction; on success push it, on failure push the error and skip to
the next newline; then skip newlines, in either case. -/
def Parser.programLoop : Nat → Program → Parser → Option (Program × Parser)
  | 0, _, _ => none
  | fuel + 1, prog, p =>
    match p.isDone with
    | none => none
    | some (true, p1) => some (prog, p1)
    | some (false, p1) =>
      match p1.instruction with
      | none => none
      | some (.ok instr, p2) =>
        match Parser.skipNewlines (fuel + 1) p2 with
        | none => none
        | some p3 =>
          Parser.programLoop fuel { prog with instrs := prog.instrs ++ [instr] } p3
      | some (.error e, p2) =>
        match Parser.skipToNewline (fuel + 1) p2 with
        | none => none
        | some p3 =>
          match Parser.skipNewlines (fuel + 1) p3 with
          | none => none
          | some p4 =>
            Parser.programLoop fuel { prog with errors := prog.errors ++ [e] } p4

/-- Rust `Parser::program` on a fresh parser: skip leading newlines, then run
the main loop.  Fuel is generous: every loop iteration consumes at least
one input character. -/
def parseProgram (s : String) : Option Program :=
  match Parser.skipNewlines (s.toList.length + 2) ⟨Lexer.new s⟩ with
  | none => none
  | some p1 =>
    match Parser.programLoop (s.toList.length + 2) ⟨[], []⟩ p1 with
    | none => none
    | some (prog, _) => some prog

/-! ## VM engine (`src/vm.rs`) -/

/-- Wrap an integer into the signed 32-bit range (release-mode Rust
semantics for `i32` addition, subtraction and multiplication). -/
def wrap32 (x : Int) : Int :=
  (x + 2147483648) % 4294967296 - 2147483648

/-- The `i32 as usize` cast on a 64-bit machine: sign-extend, then
reinterpret as an unsigned 64-bit value. -/
def usizeOfI32 (d : Int) : Nat :=
  (d % 18446744073709551616).toNat

/-- Rust `usize` addition, wrapping at `2^64` (release-mode semantics). -/
def usizeAdd (a b : Nat) : Nat :=
  (a + b) % 18446744073709551616

/-- Rust `usize` subtraction, wrapping at `2^64` (release-mode semantics). -/
def usizeSub (a b : Nat) : Nat :=
  (((a : Int) - (b : Int)) % 18446744073709551616).toNat

/-- Rust `i32` division: panics on a zero divisor and on the one
overflowing case `i32::MIN / -1` (in release builds too); otherwise it
truncates toward zero (`Int.tdiv`). -/
def i32Div (a b : Int) : Option Int :=
  if b = 0 then none
  else if a = -2147483648 ∧ b = -1 then none
  else some (a.tdiv b)

/-- The `x as u32` reinterpretation of an `i32` value. -/
def asU32 (x : Int) : Nat :=
  (x % 4294967296).toNat

/-- Rust `struct Vm`: 32 signed 32-bit registers, the byte program counter,
the code buffer, the remainder register and the comparison flag. -/
structure Vm where
  regs : List Int
  pc : Nat
  code : List Nat
  rem : Nat
  cmp : Bool
  deriving DecidableEq

/-- Rust `Vm::new`. -/
def Vm.new : Vm :=
  { regs := List.replicate 32 0, pc := 0, code := [], rem := 0, cmp := false }

/-- Rust `Vm::next_8_bits`: read the byte at `pc` (panicking — `none` — when
past the end of the buffer) and advance `pc`. -/
def Vm.next8 (v : Vm) : Option (Nat × Vm) :=
  (v.code.get? v.pc).map fun b => (b, { v with pc := v.pc + 1 })

/-- Rust `Vm::next_16_bits`: `((code[pc] as u16) << 8) | code[pc+1]` — since
both bytes are below 256 this is `b1 * 256 + b2` — and advance `pc` by
two. -/
def Vm.next16 (v : Vm) : Option (Nat × Vm) :=
  (v.code.get? v.pc).bind fun b1 =>
    (v.code.get? (v.pc + 1)).map fun b2 =>
      (b1 * 256 + b2, { v with pc := v.pc + 2 })

/-- Rust `Vm::decode_opcode`: decode the byte at `pc` and advance. -/
def Vm.decodeOpcode (v : Vm) : Option (OpCode × Vm) :=
  (v.code.get? v.pc).map fun b => (OpCode.decode b, { v with pc := v.pc + 1 })

/-- Rust `self.regs[i]` — a panicking (`none`) read past index 31. -/
def Vm.readReg (v : Vm) (i : Nat) : Option Int :=
  v.regs.get? i

/-- Rust `self.regs[i] = x` — a panicking (`none`) write past index 31. -/
def Vm.writeReg (v : Vm) (i : Nat) (x : Int) : Option Vm :=
  if i < v.regs.length then some { v with regs := v.regs.set i x } else none

/-- The shared shape of the `Add`/`Sub`/`Mul` arms of
`Vm::exec_instruction`: read two source registers and a destination
index, store `f r1 r2`. -/
def Vm.arith (v : Vm) (f : Int → Int → Int) : Option Vm := do
  let (b1, v) ← v.next8
  let r1 ← v.readReg b1
  let (b2, v) ← v.next8
  let r2 ← v.readReg b2
  let (b3, v) ← v.next8
  v.writeReg b3 (wrap32 (f r1 r2))

/-- The shared shape of the six comparison arms: read two registers,
set the `cmp` flag to `f r1 r2`, then consume (and discard) one more
byte. -/
def Vm.comparison (v : Vm) (f : Int → Int → Bool) : Option Vm := do
  let (b1, v) ← v.next8
  let r1 ← v.readReg b1
  let (b2, v) ← v.next8
  let r2 ← v.readReg b2
  let v := { v with cmp := f r1 r2 }
  let (_, v) ← v.next8
  some v

/-- Rust `Vm::exec_instruction`.  Returns the "done" flag and the next state;
`none` models a panic (out-of-range register or code index, division by
zero or `i32::MIN / -1`, and the declared-but-unimplemented `JumpNeq`,
whose execution the source never defines). -/
def Vm.execInstruction (v : Vm) : Option (Bool × Vm) :=
  if v.code.length ≤ v.pc then some (true, v)
  else
    match v.decodeOpcode with
    | none => none
    | some (op, v) =>
      match op with
      | .Halt => some (true, v)
      | .Bad => some (true, v)
      | .Load => do
        let (reg, v) ← v.next8
        let (val, v) ← v.next16
        let v ← v.writeReg reg (Int.ofNat val)
        some (decide (v.code.length ≤ v.pc), v)
      | .Add => do
        let v ← v.arith (· + ·)
        some (decide (v.code.length ≤ v.pc), v)
      | .Sub => do
        let v ← v.arith (· - ·)
        some (decide (v.code.length ≤ v.pc), v)
      | .Mul => do
        let v ← v.arith (· * ·)
        some (decide (v.code.length ≤ v.pc), v)
      | .Div => do
        let (b1, v) ← v.next8
        let r1 ← v.readReg b1
        let (b2, v) ← v.next8
        let r2 ← v.readReg b2
        let (b3, v) ← v.next8
        let q ← i32Div r1 r2
        let v ← v.writeReg b3 q
        let v := { v with rem := asU32 (r1.tmod r2) }
        some (decide (v.code.length ≤ v.pc), v)
      | .Jump => do
        let (b1, v) ← v.next8
        let dest ← v.readReg b1
        let v := { v with pc := usizeOfI32 dest }
        some (decide (v.code.length ≤ v.pc), v)
      | .JumpF => do
        let (b1, v) ← v.next8
        let dest ← v.readReg b1
        let v := { v with pc := usizeAdd v.pc (usizeOfI32 dest) }
        some (decide (v.code.length ≤ v.pc), v)
      | .JumpB => do
        let (b1, v) ← v.next8
        let dest ← v.readReg b1
        let v := { v with pc := usizeSub v.pc (usizeOfI32 dest) }
        some (decide (v.code.length ≤ v.pc), v)
      | .Eq => do
        let v ← v.comparison (fun a b => decide (a = b))
        some (decide (v.code.length ≤ v.pc), v)
      | .NotEq => do
        let v ← v.comparison (fun a b => decide (a ≠ b))
        some (decide (v.code.length ≤ v.pc), v)
      | .Greater => do
        let v ← v.comparison (fun a b => decide (b < a))
        some (decide (v.code.length ≤ v.pc), v)
      | .Less => do
        let v ← v.comparison (fun a b => decide (a < b))
        some (decide (v.code.length ≤ v.pc), v)
      | .GreaterEq => do
        let v ← v.comparison (fun a b => decide (b ≤ a))
        some (decide (v.code.length ≤ v.pc), v)
      | .LessEq => do
        let v ← v.comparison (fun a b => decide (a ≤ b))
        some (decide (v.code.length ≤ v.pc), v)
      | .JumpEq => do
        let (b1, v) ← v.next8
        let dest ← v.readReg b1
        let v := if v.cmp then { v with pc := usizeOfI32 dest } else v
        some (decide (v.code.length ≤ v.pc), v)
      | .JumpNeq => none

/-- Rust `Vm::tick`: execute one instruction, discarding the "done" flag. -/
def Vm.tick (v : Vm) : Option Vm :=
  (v.execInstruction).map fun r => r.2

/-- Iterate: `n` consecutive `exec_instruction` steps (as repeated `tick`s). -/
def Vm.ticksN : Nat → Vm → Option Vm
  | 0, v => some v
  | n + 1, v =>
    match v.execInstruction with
    | none => none
    | some (_, v1) => Vm.ticksN n v1

/-- The loop of `Vm::run`: keep executing until an instruction reports
that the program is done, with fuel for the (possibly diverging)
source loop. -/
def Vm.runFuel : Nat → Vm → Option Vm
  | 0, _ => none
  | fuel + 1, v =>
    match v.execInstruction with
    | none => none
    | some (true, v1) => some v1
    | some (false, v1) => Vm.runFuel fuel v1

/-- Rust `Vm::run`: if the program counter is already past the end nothing
runs; otherwise loop. -/
def Vm.run (fuel : Nat) (v : Vm) : Option Vm :=
  if v.code.length ≤ v.pc then some v else Vm.runFuel fuel v

/-! ## Theorems -/

/-- Helper: the encoder's fold over the operand slots is the opcode byte
followed by the concatenated bytes of the populated slots. -/
theorem instruction_bytes_eq (ops : List (Option Operand)) (acc : List Nat) :
    ops.foldl (fun acc o => match o with | some a => acc ++ a.bytes | none => acc) acc =
      acc ++ ((ops.filterMap id).map Operand.bytes).flatten := by
  induction ops generalizing acc with
  | nil => simp
  | cons o rest ih =>
    cases o <;> simp [ih, List.append_assoc]

/-- Claim C1 (code bug): the error-free program `add $0 $1` — `Add` is
declared with `Arity(2)`, so the parser accepts exactly two operands —
encodes to the three bytes `[1, 0, 1]`, yet the VM's `Add` arm consumes
three operand bytes after the opcode, so executing the encoded program
panics reading a fourth byte instead of reproducing the direct dispatch
of the single `Add` instruction. -/
theorem add_roundtrip_mismatch :
    (parseProgram "add $0 $1").map Program.errors = some [] ∧
    (parseProgram "add $0 $1").map (fun p => p.instrs.map Instruction.opcode) =
      some [.Add] ∧
    (parseProgram "add $0 $1").map Program.bytes = some [1, 0, 1] ∧
    Vm.execInstruction { Vm.new with code := [1, 0, 1] } = none := by
  refine ⟨rfl, rfl, rfl, rfl⟩

set_option maxRecDepth 4096 in
/-- Claim C2 (spec-modelled): the opcode decoder is total over all 256
byte values; byte 254 decodes to `Halt`, the sixteen declaration-order
opcodes occupy codes 0–15, and every other byte decodes to the `Bad`
sentinel (totality itself is the type of `OpCode.decode`). -/
theorem decode_total_spec :
    OpCode.decode 254 = OpCode.Halt ∧
    (∀ b : Fin 256, OpCode.decode b.val = OpCode.Bad ↔ 16 ≤ b.val ∧ b.val ≠ 254) ∧
    (∀ i : Fin 16, OpCode.decode i.val = OpCode.declOrder.getD i.val OpCode.Bad) := by
  refine ⟨rfl, by decide, by decide⟩

/-- Claim C5: a program consisting solely of the `Halt` opcode byte 254
terminates after exactly one tick — `exec_instruction` reports done and
leaves the program counter at 1, and `run` with one unit of fuel stops
in that state. -/
theorem halt_single_tick :
    Vm.execInstruction { Vm.new with code := [254] } =
      some (true, { Vm.new with code := [254], pc := 1 }) ∧
    Vm.run 1 { Vm.new with code := [254] } =
      some { Vm.new with code := [254], pc := 1 } := by
  refine ⟨rfl, rfl⟩

/-- Claim C3 counterexample: in the two-line program `load $0\nhalt`,
line 1 is malformed (`load` is missing its second operand) and line 2 is
well-formed (`halt` alone assembles to one instruction and no errors),
yet assembling yields one error and zero instructions: the token that
fails the operand parse is the newline itself, the error path consumes
it, and the skip-to-newline recovery then discards the whole of line 2. -/
theorem missing_operand_recovery_discards_next_line :
    (parseProgram "load $0\nhalt").map
        (fun p => (p.instrs.length, p.errors.length)) = some (0, 1) ∧
    (parseProgram "halt").map
        (fun p => (p.instrs.length, p.errors.length)) = some (1, 0) := by
  refine ⟨rfl, rfl⟩

/-- Claim C3 (amended): when the parse failure on line 1 is at an
offending token that precedes the line's newline — here `foo`, an
unknown-token lexeme spanning bytes 5–8 — the parser records exactly one
error carrying that token and still parses line 2 into its one
instruction; but when the failure consumes the newline itself (a missing
trailing operand) the recovery also discards line 2, leaving one error
and zero instructions. -/
theorem one_bad_line_recovery :
    (parseProgram "load foo\nhalt").map
        (fun p => (p.instrs.map Instruction.opcode, p.errors)) =
      some ([.Halt], [.expectedOperand ⟨.unknown 5 8⟩]) ∧
    (parseProgram "load $0\nhalt").map
        (fun p => (p.instrs.map Instruction.opcode, p.errors)) =
      some ([], [.expectedOperand ⟨.newline⟩]) := by
  refine ⟨rfl, rfl⟩

/-- Claim C6 counterexample: with a nonzero divisor of `-1` and dividend
`i32::MIN`, the Rust division `r1 / r2` overflows and panics (in release
builds too), so the claimed "nonzero divisor stores the truncating
quotient" fails — the quotient `2^31` is not even representable. -/
theorem div_overflow_panics :
    Vm.execInstruction
      { Vm.new with
          regs := ((List.replicate 32 (0 : Int)).set 0 (-2147483648)).set 1 (-1)
          code := [4, 0, 1, 2] } = none := by
  rfl

/-- Claim C6 (amended): executing `Div` with register operands `a`, `b`,
`c` when the divisor `regs[b]` is nonzero and the division is not the
overflowing `i32::MIN / -1` stores the truncating quotient in `regs[c]`
and the unsigned reinterpretation of the remainder in the special `rem`
register; a zero divisor (like the overflow case) is a fatal panic, not
a recoverable error. -/
theorem div_semantics (regs : List Int) (a b c rem0 : Nat) (cmp0 : Bool)
    (r1 r2 : Int) (ha : regs[a]? = some r1) (hb : regs[b]? = some r2)
    (hc : c < regs.length) :
    (r2 ≠ 0 → ¬(r1 = -2147483648 ∧ r2 = -1) →
      Vm.execInstruction ⟨regs, 0, [4, a, b, c], rem0, cmp0⟩ =
        some (true, ⟨regs.set c (r1.tdiv r2), 4, [4, a, b, c],
          asU32 (r1.tmod r2), cmp0⟩)) ∧
    (r2 = 0 →
      Vm.execInstruction ⟨regs, 0, [4, a, b, c], rem0, cmp0⟩ = none) := by
  constructor
  · intro h2 hov
    simp [Vm.execInstruction, Vm.decodeOpcode, Vm.next8, Vm.readReg, Vm.writeReg,
      OpCode.decode, OpCode.declOrder, i32Div, h2, hov, hc, ha, hb]
  · intro h2
    subst h2
    simp [Vm.execInstruction, Vm.decodeOpcode, Vm.next8, Vm.readReg, Vm.writeReg,
      OpCode.decode, OpCode.declOrder, i32Div, hc, ha, hb]

/-- Concrete instance of `div_semantics`: dividing register values 7 by
2 stores quotient 3 and remainder 1. -/
theorem div_semantics_witness :
    Vm.execInstruction
        ⟨((List.replicate 32 (0 : Int)).set 0 7).set 1 2, 0, [4, 0, 1, 2], 0, false⟩ =
      some (true, ⟨(((List.replicate 32 (0 : Int)).set 0 7).set 1 2).set 2
        ((7 : Int).tdiv 2), 4, [4, 0, 1, 2], asU32 ((7 : Int).tmod 2), false⟩) :=
  (div_semantics (((List.replicate 32 (0 : Int)).set 0 7).set 1 2) 0 1 2 0 false 7 2
    (by decide) (by decide) (by decide)).1 (by decide) (by decide)

/-- Claim C7 counterexample: `$300` is `$` followed by base-16 digits
denoting 300 > 255, but the lexer yields an `InvalidInt` error token for
the span of the digit run, not a register token holding `300 mod 256 =
44`; `$1f` (hex digits with a letter) likewise errors, because the
source's `number::<u8, 16>` eats base-16 digits but parses them with the
base-10 `u8::from_str`. -/
theorem hex_register_not_truncated :
    ((Lexer.new "$300").token).map (fun r => r.1.lexeme) =
      some (.invalidInt 1 4) ∧
    ((Lexer.new "$1f").token).map (fun r => r.1.lexeme) =
      some (.invalidInt 1 3) ∧
    ((Lexer.new "$300").token).map (fun r => r.1.lexeme) ≠ some (.reg 44) := by
  refine ⟨rfl, rfl, by decide⟩

/-- Claim C10 counterexample: at the 32-bit value 500 the two integer
serializers disagree — `Int::bytes` yields `[244, 1]` (low byte first)
while `Operand::bytes` yields `[1, 244]` (high byte first). -/
theorem int_bytes_disagree_at_500 :
    intBytes 500 = [244, 1] ∧ (Operand.int 500).bytes = [1, 244] ∧
    intBytes 500 ≠ (Operand.int 500).bytes := by
  refine ⟨rfl, rfl, by decide⟩

/-- Claim C10 (amended): `Int::bytes` emits the two bytes of the low 16
bits in low-first order, which is the reversal of the high-first pair
emitted by the integer case of `Operand::bytes`. -/
theorem int_bytes_is_reverse_of_operand_bytes (n : ℤ) :
    intBytes n = ((Operand.int n).bytes).reverse := by
  simp [intBytes, Operand.bytes]

/-- Claim C4 (spec-modelled opcode byte): the encoder emits the opcode's
numeric byte first and then each populated operand in positional order;
a register operand is its one index byte, an integer operand is the two
bytes of the low 16 bits of the 32-bit value, high byte first and low
byte second; and the assembled instruction `load $0 #500` encodes to
`[0x00, 0x00, 0x01, 0xF4]`. -/
theorem instruction_encoding :
    (∀ r : Nat, (Operand.reg r).bytes = [r]) ∧
    (∀ n : Int, (Operand.int n).bytes =
      [(n % 65536).toNat / 256, (n % 65536).toNat % 256]) ∧
    (∀ i : Instruction, i.bytes =
      i.opcode.toByte :: ((i.operands.filterMap id).map Operand.bytes).flatten) ∧
    (parseProgram "load $0 #500").map Program.bytes = some [0, 0, 1, 244] := by
  refine ⟨fun r => rfl, fun n => rfl, fun i => ?_, rfl⟩
  simpa [Instruction.bytes] using instruction_bytes_eq i.operands [i.opcode.toByte]

set_option maxHeartbeats 1000000 in
/-- Helper: a single `exec_instruction` step never changes the code
buffer — no arm of the dispatch writes to `code`. -/
theorem execInstruction_code {v : Vm} {d : Bool} {v1 : Vm}
    (h : v.execInstruction = some (d, v1)) : v1.code = v.code := by
  unfold Vm.execInstruction at h
  by_cases hd : v.code.length ≤ v.pc
  · rw [if_pos hd] at h; cases h; rfl
  · rw [if_neg hd] at h
    cases hdec : v.decodeOpcode with
    | none => rw [hdec] at h; cases h
    | some x =>
      obtain ⟨op, va⟩ := x
      have hcode : va.code = v.code := by
        simp only [Vm.decodeOpcode, Option.map_eq_some'] at hdec
        obtain ⟨b0, hb0, hpair⟩ := hdec
        cases hpair; rfl
      rw [hdec] at h
      cases op <;>
        (try simp only [Vm.arith, Vm.comparison, Vm.next8, Vm.next16, Vm.readReg,
          Vm.writeReg, i32Div, Option.bind_eq_bind, Option.map_eq_some',
          Option.bind_eq_some] at h) <;>
        aesop

/-- Claim C9: executing instructions never modifies the code buffer —
for any start state, one `exec_instruction` step, and any number of
consecutive steps, leave `code` exactly as it was (the state consists
only of `regs`, `pc`, `code`, `rem` and `cmp`, so every other change is
confined to the registers, the program counter, the remainder register
and the compare flag). -/
theorem exec_preserves_code (v : Vm) :
    (∀ d v1, v.execInstruction = some (d, v1) → v1.code = v.code) ∧
    (∀ n v1, Vm.ticksN n v = some v1 → v1.code = v.code) := by
  refine ⟨fun d v1 h => execInstruction_code h, ?_⟩
  intro n
  induction n generalizing v with
  | zero => intro v1 h; cases h; rfl
  | succ n ih =>
    intro v1 h
    unfold Vm.ticksN at h
    split at h
    · cases h
    · next heq =>
      exact (ih _ _ h).trans (execInstruction_code heq)

/-- Concrete instance of `exec_preserves_code`: three ticks from a
halt-only program leave the code buffer untouched. -/
theorem exec_preserves_code_witness :
    ({ Vm.new with code := [254], pc := 1 } : Vm).code =
      ({ Vm.new with code := [254] } : Vm).code :=
  (exec_preserves_code { Vm.new with code := [254] }).2 3
    { Vm.new with code := [254], pc := 1 } (by decide)

/-- Helper: one `token()` call on an exhausted lexer returns the `Eof`
token, changing nothing but the `eol` flag (which `eat_whitespace`
unconditionally reassigns to `line < line`, i.e. `false`). -/
theorem token_at_exhausted (l : Lexer) (h : l.rest = []) :
    l.token = some (⟨.eof⟩, { l with eol := false }) := by
  obtain ⟨inp, rest, cur, ln, co, byt, eo⟩ := l
  simp only at h
  subst h
  simp [Lexer.token, Lexer.tokenFuel, Lexer.eatWhitespace, Lexer.eatWhile,
    Nat.lt_irrefl]

/-- Claim C8: the lexer is idempotent at end of input — once the
character stream is exhausted, the `(n+1)`-th subsequent `token()` call
returns the `Eof` token for every `n`, never panicking, and leaves the
state fixed apart from clearing the `eol` flag. -/
theorem eof_idempotent (l : Lexer) (h : l.rest = []) (n : Nat) :
    Lexer.tokenN n l = some (⟨.eof⟩, { l with eol := false }) := by
  induction n generalizing l with
  | zero => exact token_at_exhausted l h
  | succ n ih =>
    rw [Lexer.tokenN, token_at_exhausted l h]
    simpa using ih { l with eol := false } (by simpa using h)

/-- Concrete instance of `eof_idempotent`: the sixth consecutive call on
the empty input still yields `Eof`. -/
theorem eof_idempotent_witness :
    Lexer.tokenN 5 (Lexer.new "") =
      some (⟨.eof⟩, { Lexer.new "" with eol := false }) :=
  eof_idempotent (Lexer.new "") rfl 5

/-- Helper: a base-10 digit is also a base-16 digit. -/
theorem isDigit10_isDigit16 {c : Char} (h : isDigitRadix 10 c = true) :
    isDigitRadix 16 c = true := by
  simp only [isDigitRadix, Bool.or_eq_true, Bool.and_eq_true,
    decide_eq_true_eq] at h ⊢
  omega

/-- Claim C7 (amended): `$` followed by a run of decimal digits whose
base-10 value is at most 255 lexes to a `Reg` token holding that value
(`u8FromStr` succeeding is exactly that condition); there is no 8-bit
truncation — a digit run denoting a larger value, or one using the hex
letters the scanner accepts, fails `u8::from_str` and yields an
`InvalidInt` error token instead. -/
theorem register_lexing (ds : List Char) (n : Nat) (hne : ds ≠ [])
    (hds : ds.all (isDigitRadix 10)) (hn : u8FromStr ds = some n) :
    ((Lexer.new (String.mk ('$' :: ds))).token).map (fun r => r.1.lexeme) =
      some (.reg n) := by
  obtain ⟨d, ds2, rfl⟩ := List.exists_cons_of_ne_nil hne
  have hall : ∀ x ∈ d :: ds2, isDigitRadix 16 x := by
    intro x hx
    exact isDigit10_isDigit16 (by simpa using (List.all_eq_true.mp hds x hx))
  have htake : (d :: ds2).takeWhile (isDigitRadix 16) = d :: ds2 :=
    List.takeWhile_eq_self_iff.mpr hall
  have hdrop : (d :: ds2).dropWhile (isDigitRadix 16) = [] :=
    List.dropWhile_eq_nil_iff.mpr hall
  have hd16 : isDigitRadix 16 d = true := hall d (by simp)
  simp [Lexer.new, Lexer.token, Lexer.tokenFuel, Lexer.eatWhitespace,
    Lexer.eatWhile, Lexer.nextChar, isWhitespaceChar, htake, hdrop, hd16, hn]

/-- Concrete instance of `register_lexing`: `$255` lexes to `Reg 255`. -/
theorem register_lexing_witness :
    ((Lexer.new (String.mk ['$', '2', '5', '5'])).token).map
        (fun r => r.1.lexeme) = some (.reg 255) :=
  register_lexing ['2', '5', '5'] 255 (by decide) (by decide) (by decide)

end LilVm
